import Mathlib

/-!
Verification of the oracle-net identity & provenance subsystem.

This file gives a shallow embedding of:
  * the siwer Cloudflare worker (`siwer/src/index.ts`): the `/nonce` and
    `/verify` endpoints over an explicit key-value nonce store, with the
    external cryptographic signature check, the PocketBase record store and
    the date formatter taken as parameters of the model;
  * the Go allow-list matcher (`migrations/1706745616_add_settings.go`:
    `matchPattern`, `matchesAnyPattern`);
  * the GitHub birth-issue verification endpoint and its comment scan
    (`hooks` file: `POST /api/auth/github/verify`, `checkCommentsForCode`);
  * the Merkle tree built by `computeTreeLayers` (`src/pages/Home.tsx`),
    which delegates to `@openzeppelin/merkle-tree`'s `StandardMerkleTree`:
    leaves are sorted ascending by leaf hash, placed in reverse at the tail
    of a flat complete-binary-tree array, and internal nodes hash the
    sorted pair of their children.  The byte-level keccak hashes are
    abstracted to parameters `H : Nat -> Nat -> Nat` (pair hash) and
    `LH` (leaf tuple hash); every structural statement is proved for all
    such parameters.
-/

namespace OracleNet

/-! ## Strings: substring occurrence (models JS `includes` / Go `strings.Contains`). -/

/-- `(a ++ b).data = a.data ++ b.data`: `String.append` concatenates the
underlying character lists. -/
theorem string_data_append (a b : String) : (a ++ b).data = a.data ++ b.data := rfl

/-- Boolean substring test at the character level: `needle` occurs
contiguously inside `hay`.  Models Go `strings.Contains(hay, needle)` and the
"embeds" relation of the sign-in message. -/
def containsStr (hay needle : String) : Bool :=
  decide (needle.data <:+: hay.data)

/-- `containsStr` holds of any explicit decomposition `u ++ x ++ v`. -/
theorem containsStr_of_append (u x v : String) :
    containsStr (u ++ x ++ v) x = true := by
  unfold containsStr
  exact decide_eq_true ⟨u.data, v.data, by simp [string_data_append]⟩

/-- ASCII lower-casing of a string, modelling JS `toLowerCase()` on the
0x-hex addresses the worker handles.  (Core `String.toLower` applies the
same `Char.toLower` per character, but through a byte-indexed loop; the
character-list form keeps the model kernel-computable.) -/
def lowerStr (s : String) : String := ⟨s.data.map Char.toLower⟩

/-! ## Go allow-list matcher (`migrations/1706745616_add_settings.go`). -/

/-- Embedding of Go `matchPattern(repo, pattern)`, stated on the character
lists (Go indexes bytes; the inputs are ASCII patterns): a nonempty pattern
whose last character is `*` matches any repo string that starts with the
part before the `*`; any other pattern matches only the identical string. -/
def matchPattern (repo pat : String) : Bool :=
  if pat.data.getLast? == some '*' then
    List.isPrefixOf pat.data.dropLast repo.data
  else
    repo == pat

/-- Embedding of Go `matchesAnyPattern(repo, patterns)`. -/
def matchesAnyPattern (repo : String) (patterns : List String) : Bool :=
  patterns.any (fun pat => matchPattern repo pat)

/-! ## The siwer worker (`siwer/src/index.ts`).

The Cloudflare KV namespace `NONCES` is modelled as an association list from
(lower-cased) address to the stored `{nonce, timestamp}` JSON value; its TTL
sweeping happens outside the request handlers and is not part of any claim
settled here. -/

/-- The JSON value stored in `NONCES` by `POST /nonce`:
`JSON.stringify({nonce, timestamp})`. -/
structure NonceRecord where
  nonce : String
  timestamp : Nat
deriving DecidableEq

/-- The `NONCES` KV namespace: keys are lower-cased addresses. -/
abbrev NonceStore := List (String × NonceRecord)

/-- `NONCES.get(k)`. -/
def kvGet (st : NonceStore) (k : String) : Option NonceRecord :=
  match st.find? (fun p => p.1 == k) with
  | some p => some p.2
  | none => none

/-- `NONCES.delete(k)`. -/
def kvDelete (st : NonceStore) (k : String) : NonceStore :=
  st.filter (fun p => !(p.1 == k))

/-- `NONCES.put(k, v)`: overwrites any existing entry for `k`. -/
def kvPut (st : NonceStore) (k : String) (v : NonceRecord) : NonceStore :=
  (k, v) :: kvDelete st k

/-- After deleting key `k`, `get k` misses. -/
theorem kvGet_kvDelete (st : NonceStore) (k : String) :
    kvGet (kvDelete st k) k = none := by
  unfold kvGet kvDelete
  induction st with
  | nil => rfl
  | cons p t ih =>
    by_cases h : p.1 = k
    · simpa [h] using ih
    · simpa [h] using ih

/-- The signed-message template of both `/nonce` and `/verify`
(`siwer/src/index.ts` lines 43-46 and 76-79): the second piece is the
rendering `new Date(timestamp).toISOString()` of the stored timestamp. -/
def signMessage (nonce isoTs : String) : String :=
  "Sign in to OracleNet\n\nNonce: " ++ nonce ++ "\nTimestamp: " ++ isoTs

/-- The oracle record fields used by the siwer endpoints. -/
structure Oracle where
  id : String
  name : String
  wallet_address : String
  approved : Bool
  karma : Nat
deriving DecidableEq

/-- The payload `/verify` passes to `pb.collection('oracles').create(...)`
on lookup miss (`siwer/src/index.ts` lines 115-122). -/
structure OracleCreateArgs where
  name : String
  wallet_address : String
  password : String
  passwordConfirm : String
  approved : Bool
  karma : Nat
deriving DecidableEq

/-- JavaScript `a || b` on an optional string: an absent or empty string
falls back to the default. -/
def jsOr (s : Option String) (d : String) : String :=
  match s with
  | some s => if s = "" then d else s
  | none => d

/-- The create payload built by the `/verify` create branch:
`name: name || Oracle-<first 6 chars>`, lower-cased wallet address as both
wallet and password, `approved: true`, `karma: 0`. -/
def createArgsFor (address : String) (nm : Option String) : OracleCreateArgs :=
  { name := jsOr nm ("Oracle-" ++ address.take 6)
    wallet_address := (lowerStr address)
    password := (lowerStr address)
    passwordConfirm := (lowerStr address)
    approved := true
    karma := 0 }

/-- External collaborators of the siwer worker, as parameters of the model:
`verifyMessage` is viem's recovery-based check (`Except.error` models a
thrown exception, `.ok b` its boolean verdict); `findByWallet` is the
PocketBase `getFirstListItem` lookup (`none` models the thrown miss);
`create` is the PocketBase record creation; `auth` is
`authWithPassword(identity, password)` returning a token; `updateAuth` is
the fallback branch that updates the record password and retries the auth,
collapsed to its final token-or-error outcome; `iso` is
`new Date(ms).toISOString()`. -/
structure SiwerEnv where
  verifyMessage : String → String → String → Except String Bool
  findByWallet : String → Option Oracle
  create : OracleCreateArgs → Except String Oracle
  auth : String → String → Except String String
  updateAuth : String → String → Except String String
  iso : Nat → String

/-- Outcome of `POST /nonce`. -/
inductive NonceResult where
  | ok (nonce : String) (message : String)
  | err (msg : String)
deriving DecidableEq

/-- Outcome of `POST /verify` (and `/link`): either the success JSON's
oracle, created flag and token, or the error message of a failure JSON. -/
inductive SiwerResult where
  | ok (oracle : Oracle) (created : Bool) (token : String)
  | err (msg : String)
deriving DecidableEq

/-- `POST /nonce` (`siwer/src/index.ts` lines 26-53): requires a truthy
`address`; stores the fresh `{nonce, timestamp}` under the lower-cased
address (overwriting any prior challenge) and returns the message to sign.
The random nonce and the current time are inputs of the model. -/
def nonceEndpoint (iso : Nat → String) (st : NonceStore)
    (address nonce : String) (timestamp : Nat) : NonceResult × NonceStore :=
  if address = "" then
    (.err "address required", st)
  else
    (.ok nonce (signMessage nonce (iso timestamp)),
     kvPut st (lowerStr address) ⟨nonce, timestamp⟩)

/-- The auth-token phase shared by the found and created branches of
`/verify` (`siwer/src/index.ts` lines 130-152): try
`authWithPassword(oracle.wallet_address, addrLower)`; on failure update the
password and retry; on a second failure answer `Auth failed`. -/
def authPhase (env : SiwerEnv) (oracle : Oracle) (addrLower : String)
    (created : Bool) : SiwerResult :=
  match env.auth oracle.wallet_address addrLower with
  | .ok tok => .ok oracle created tok
  | .error _ =>
    match env.updateAuth oracle.id addrLower with
    | .ok tok => .ok oracle created tok
    | .error e => .err ("Auth failed: " ++ e)

/-- `POST /verify` (`siwer/src/index.ts` lines 56-166): require both
parameters; fetch the stored nonce for the lower-cased address (miss fails
`No nonce found`); rebuild the message from the stored nonce and timestamp;
run viem's `verifyMessage` (a throw fails `Verification failed`, a `false`
verdict fails `Invalid signature`); on a valid signature delete the stored
nonce, then find-or-create the oracle by wallet and run the auth phase.
The single `NONCES.delete` of line 98, executed before any PocketBase step,
appears inlined as the second pair component of each later branch. -/
def verifyEndpoint (env : SiwerEnv) (st : NonceStore)
    (address signature : String) (nm : Option String) :
    SiwerResult × NonceStore :=
  if address = "" ∨ signature = "" then
    (.err "address and signature required", st)
  else
    match kvGet st (lowerStr address) with
    | none => (.err "No nonce found. Call /nonce first", st)
    | some nr =>
      match env.verifyMessage address (signMessage nr.nonce (env.iso nr.timestamp)) signature with
      | .error e => (.err ("Verification failed: " ++ e), st)
      | .ok false => (.err "Invalid signature", st)
      | .ok true =>
        match env.findByWallet (lowerStr address) with
        | some oracle =>
          (authPhase env oracle (lowerStr address) false, kvDelete st (lowerStr address))
        | none =>
          match env.create (createArgsFor address nm) with
          | .error e => (.err ("Create failed: " ++ e), kvDelete st (lowerStr address))
          | .ok oracle =>
            (authPhase env oracle (lowerStr address) true, kvDelete st (lowerStr address))

/-- An `authPhase` success returns exactly the oracle and created flag it
was given. -/
theorem authPhase_ok {env : SiwerEnv} {oracle : Oracle} {k : String}
    {cr : Bool} {o : Oracle} {c : Bool} {t : String}
    (h : authPhase env oracle k cr = .ok o c t) : o = oracle ∧ c = cr := by
  unfold authPhase at h
  split at h
  · injection h with h1 h2 h3
    exact ⟨h1.symm, h2.symm⟩
  · split at h
    · injection h with h1 h2 h3
      exact ⟨h1.symm, h2.symm⟩
    · cases h

/-- A successful `/verify` call leaves the store with the address's entry
deleted, and had nonempty parameters. -/
theorem verifyEndpoint_ok_state {env : SiwerEnv} {st : NonceStore}
    {a s : String} {nm : Option String} {o : Oracle} {c : Bool} {t : String}
    {st' : NonceStore}
    (h : verifyEndpoint env st a s nm = (.ok o c t, st')) :
    st' = kvDelete st (lowerStr a) ∧ ¬(a = "" ∨ s = "") := by
  unfold verifyEndpoint at h
  split at h
  · simp at h
  next ha =>
    refine ⟨?_, ha⟩
    split at h
    · simp at h
    · split at h
      · simp at h
      · simp at h
      · split at h
        · exact (congrArg Prod.snd h).symm
        · split at h
          · simp at h
          · exact (congrArg Prod.snd h).symm

/-! ## Concrete instantiations used by witnesses and counterexamples. -/

/-- A fixed oracle record for found-branch runs. -/
def oracleA : Oracle := ⟨"id1", "Alice", "0xab", true, 0⟩

/-- A store holding one challenge for address `0xab`. -/
def storeA : NonceStore := [("0xab", ⟨"abcd1234", 0⟩)]

/-- A concrete date formatter (correct at millisecond 0). -/
def isoZero : Nat → String := fun _ => "1970-01-01T00:00:00.000Z"

/-- Environment where the signature always verifies and the wallet lookup
finds `oracleA`. -/
def envFound : SiwerEnv :=
  ⟨fun _ _ _ => .ok true, fun _ => some oracleA, fun _ => .error "no create",
   fun _ _ => .ok "tok1", fun _ _ => .error "no retry", isoZero⟩

/-- Environment where the signature always verifies, the wallet lookup
misses, and creation echoes the passed record. -/
def envCreate : SiwerEnv :=
  ⟨fun _ _ _ => .ok true, fun _ => none,
   fun args => .ok ⟨"id2", args.name, args.wallet_address, args.approved, args.karma⟩,
   fun _ _ => .ok "tok2", fun _ _ => .error "no retry", isoZero⟩

/-- Environment where the signature verifies but the PocketBase create
throws. -/
def envCreateFail : SiwerEnv :=
  ⟨fun _ _ _ => .ok true, fun _ => none, fun _ => .error "boom",
   fun _ _ => .ok "tok", fun _ _ => .error "no retry", isoZero⟩

/-- C1: a successful `/verify` deletes the address's stored challenge, so
an immediately repeated call with the same address and signature fails with
the nonce-not-found error. -/
theorem verify_consumes_nonce (env : SiwerEnv) (st : NonceStore)
    (a s : String) (nm : Option String) (o : Oracle) (c : Bool) (t : String)
    (st' : NonceStore)
    (h : verifyEndpoint env st a s nm = (.ok o c t, st')) :
    verifyEndpoint env st' a s nm =
      (.err "No nonce found. Call /nonce first", st') := by
  obtain ⟨hst, ha⟩ := verifyEndpoint_ok_state h
  unfold verifyEndpoint
  rw [if_neg ha, hst, kvGet_kvDelete]

/-- C1 witness: a concrete successful run on `storeA`, replayed. -/
theorem verify_consumes_nonce_witness :
    verifyEndpoint envFound (kvDelete storeA "0xab") "0xAB" "0xsig" none =
      (.err "No nonce found. Call /nonce first", kvDelete storeA "0xab") := by
  have h : verifyEndpoint envFound storeA "0xAB" "0xsig" none =
      (.ok oracleA false "tok1", kvDelete storeA "0xab") := by decide
  have h2 := verify_consumes_nonce envFound storeA "0xAB" "0xsig" none
    oracleA false "tok1" (kvDelete storeA "0xab") h
  simpa using h2

/-- C6 (amended): every `/verify` call that fails because a parameter is
missing or because the signature is invalid or unrecoverable — i.e. the
environment's `verifyMessage` never returns a `true` verdict for this
address and signature — leaves the nonce store untouched. -/
theorem verify_failure_preserves_store (env : SiwerEnv) (st : NonceStore)
    (a s : String) (nm : Option String)
    (h : a = "" ∨ s = "" ∨ ∀ msg, env.verifyMessage a msg s ≠ .ok true) :
    (verifyEndpoint env st a s nm).2 = st := by
  unfold verifyEndpoint
  split
  · rfl
  next ha =>
    split
    · rfl
    next nr hk =>
      split
      · rfl
      · rfl
      next hv =>
        exfalso
        rcases h with h | h | h
        · exact ha (Or.inl h)
        · exact ha (Or.inr h)
        · exact h _ hv

/-- C6 witness: with an environment whose signature check always rejects,
a call on `storeA` leaves the store unchanged. -/
theorem verify_failure_preserves_store_witness :
    (verifyEndpoint
      ⟨fun _ _ _ => .ok false, fun _ => some oracleA, fun _ => .error "no create",
       fun _ _ => .ok "tok1", fun _ _ => .error "no retry", isoZero⟩
      storeA "0xAB" "0xsig" none).2 = storeA :=
  verify_failure_preserves_store _ storeA "0xAB" "0xsig" none
    (Or.inr (Or.inr (fun _ h => by cases h)))

/-- C6 counterexample: the stored challenge is not deleted only on overall
success — with a valid signature but a failing PocketBase create, the call
fails with `Create failed` yet the challenge is already consumed. -/
theorem verify_failure_can_consume_nonce :
    verifyEndpoint envCreateFail storeA "0xAB" "0xsig" none =
      (.err "Create failed: boom", []) ∧
    kvGet storeA "0xab" = some ⟨"abcd1234", 0⟩ ∧
    kvGet ([] : NonceStore) "0xab" = none := by
  refine ⟨by decide, by decide, rfl⟩

/-- C5 (amended): whenever `/verify` answers with `created = true`, the
record it asked PocketBase to create is exactly `createArgsFor`, whose
`approved` field is unconditionally `true`; no allow-list is consulted. -/
theorem verify_create_always_approved (env : SiwerEnv) (st : NonceStore)
    (a s : String) (nm : Option String) (o : Oracle) (t : String)
    (st' : NonceStore)
    (h : verifyEndpoint env st a s nm = (.ok o true t, st')) :
    env.create (createArgsFor a nm) = .ok o ∧
    (createArgsFor a nm).approved = true := by
  unfold verifyEndpoint at h
  split at h
  · simp at h
  · split at h
    · simp at h
    · split at h
      · simp at h
      · simp at h
      · split at h
        next oracle hf =>
          exfalso
          have h1 := congrArg Prod.fst h
          exact absurd (authPhase_ok h1).2 (by simp)
        · split at h
          · simp at h
          next oracle hc =>
            have h1 := congrArg Prod.fst h
            obtain ⟨ho, _⟩ := authPhase_ok h1
            exact ⟨ho ▸ hc, rfl⟩

/-- C5 witness: a concrete create-branch success. -/
theorem verify_create_always_approved_witness :
    envCreate.create (createArgsFor "0xAB" none) =
      .ok ⟨"id2", "Oracle-0xAB", "0xab", true, 0⟩ ∧
    (createArgsFor "0xAB" none).approved = true :=
  verify_create_always_approved envCreate storeA "0xAB" "0xsig" none
    ⟨"id2", "Oracle-0xAB", "0xab", true, 0⟩ "tok2" (kvDelete storeA "0xab")
    (by decide)

/-- C5 counterexample: the wallet `/verify` create branch sets
`approved = true` even though the address matches no configured allow-list
pattern (here the seeded default `whitelisted_repos` value
`Soul-Brews-Studio/*`), contradicting `approved=false unless allow-listed`. -/
theorem verify_create_ignores_allowlist :
    matchesAnyPattern "0xdead" ["Soul-Brews-Studio/*"] = false ∧
    verifyEndpoint envCreate [("0xdead", ⟨"abcd1234", 0⟩)] "0xdead" "0xsig" none =
      (.ok ⟨"id2", "Oracle-0xdead", "0xdead", true, 0⟩ true "tok2", []) := by
  refine ⟨by decide, by decide⟩

/-- Modelled from the spec: a syntactically well-formed account identifier
per the data model ("canonical lower-case 20-byte hex" address, here
accepting either letter case before canonicalisation): `0x` followed by
exactly 40 hexadecimal digits.  No such check exists anywhere in the code;
the definition is needed to state C8. -/
def isWellFormedAddress (s : String) : Bool :=
  match s.data with
  | '0' :: 'x' :: rest =>
    rest.length == 40 && rest.all (fun c =>
      c.isDigit || ('a' ≤ c && c ≤ 'f') || ('A' ≤ c && c ≤ 'F'))
  | _ => false

/-- C8 counterexample: `/nonce` accepts the malformed address `zz` — it
answers success and stores a challenge for it, while the claim demands an
error and no stored challenge for every non-well-formed input. -/
theorem nonce_accepts_malformed_address :
    isWellFormedAddress "zz" = false ∧
    nonceEndpoint isoZero [] "zz" "abcd1234" 0 =
      (.ok "abcd1234" (signMessage "abcd1234" (isoZero 0)),
       [("zz", ⟨"abcd1234", 0⟩)]) := by
  refine ⟨by decide, by decide⟩

/-- C8 (amended): `/nonce` validates only that the address is present: the
empty (JS-falsy) address is rejected with the store untouched, and every
nonempty address — well-formed or not — is accepted, with the challenge
retrievable under the lower-cased address. -/
theorem nonce_checks_presence_only (iso : Nat → String) (st : NonceStore)
    (a n : String) (t : Nat) :
    ((nonceEndpoint iso st a n t).1 ≠ .err "address required" ↔ a ≠ "") ∧
    (a ≠ "" → kvGet (nonceEndpoint iso st a n t).2 (lowerStr a) = some ⟨n, t⟩) ∧
    (a = "" → nonceEndpoint iso st a n t = (.err "address required", st)) := by
  refine ⟨?_, ?_, ?_⟩
  · by_cases h : a = "" <;> simp [nonceEndpoint, h]
  · intro h
    simp [nonceEndpoint, h, kvPut, kvGet]
  · intro h
    simp [nonceEndpoint, h]

/-- C8 witness: the malformed nonempty address `zz` gets its challenge
stored. -/
theorem nonce_checks_presence_only_witness :
    kvGet (nonceEndpoint isoZero [] "zz" "abcd1234" 0).2 (lowerStr "zz") =
      some ⟨"abcd1234", 0⟩ :=
  (nonce_checks_presence_only isoZero [] "zz" "abcd1234" 0).2.1 (by decide)

/-! ## Sign-in message contents (C9). -/

/-- A substring of `a` is a substring of `a ++ b`. -/
theorem containsStr_append_left (a b x : String)
    (h : containsStr a x = true) : containsStr (a ++ b) x = true := by
  unfold containsStr at h ⊢
  rw [decide_eq_true_iff] at h ⊢
  rw [string_data_append]
  exact h.trans ⟨[], b.data, by simp⟩

/-- A substring of `b` is a substring of `a ++ b`. -/
theorem containsStr_append_right (a b x : String)
    (h : containsStr b x = true) : containsStr (a ++ b) x = true := by
  unfold containsStr at h ⊢
  rw [decide_eq_true_iff] at h ⊢
  rw [string_data_append]
  exact h.trans ⟨a.data, [], by simp⟩

/-- Every string occurs in itself. -/
theorem containsStr_self (x : String) : containsStr x x = true := by
  unfold containsStr
  exact decide_eq_true ⟨[], [], by simp⟩

set_option maxRecDepth 4000 in
/-- C9 counterexample: a successfully issued nonce whose sign-in message
does not embed the requesting address at all (nor, a fortiori, a chain
identifier): the message built for
`0x1234567890123456789012345678901234567890` never mentions it. -/
theorem nonce_message_omits_address :
    (nonceEndpoint isoZero [] "0x1234567890123456789012345678901234567890"
        "abcd1234" 0).1 =
      .ok "abcd1234" (signMessage "abcd1234" (isoZero 0)) ∧
    containsStr (signMessage "abcd1234" (isoZero 0))
      "0x1234567890123456789012345678901234567890" = false := by
  refine ⟨by decide, by decide⟩

/-- C9 (amended): for every successfully issued nonce, the returned message
embeds the human-readable statement `Sign in to OracleNet`, the nonce, and
the rendered issuance timestamp (and nothing identifies the address, domain
or chain: the template has no further holes). -/
theorem nonce_message_contents (iso : Nat → String) (st : NonceStore)
    (a n : String) (t : Nat) (h : a ≠ "") :
    (nonceEndpoint iso st a n t).1 = .ok n (signMessage n (iso t)) ∧
    containsStr (signMessage n (iso t)) "Sign in to OracleNet" = true ∧
    containsStr (signMessage n (iso t)) n = true ∧
    containsStr (signMessage n (iso t)) (iso t) = true := by
  refine ⟨by simp [nonceEndpoint, h], ?_, ?_, ?_⟩
  · unfold signMessage
    refine containsStr_append_left _ _ _ (containsStr_append_left _ _ _
      (containsStr_append_left _ _ _ ?_))
    have : ("Sign in to OracleNet" ++ "\n\nNonce: " : String) =
        "Sign in to OracleNet\n\nNonce: " := by decide
    rw [← this]
    exact containsStr_append_left _ _ _ (containsStr_self _)
  · unfold signMessage
    exact containsStr_append_left _ _ _ (containsStr_append_left _ _ _
      (containsStr_append_right _ _ _ (containsStr_self _)))
  · unfold signMessage
    exact containsStr_append_right _ _ _ (containsStr_self _)

/-- C9 witness: the amended message-contents theorem at a concrete call. -/
theorem nonce_message_contents_witness :
    (nonceEndpoint isoZero [] "0xAB" "abcd1234" 0).1 =
      .ok "abcd1234" (signMessage "abcd1234" (isoZero 0)) ∧
    containsStr (signMessage "abcd1234" (isoZero 0)) "Sign in to OracleNet" = true ∧
    containsStr (signMessage "abcd1234" (isoZero 0)) "abcd1234" = true ∧
    containsStr (signMessage "abcd1234" (isoZero 0)) (isoZero 0) = true :=
  nonce_message_contents isoZero [] "0xAB" "abcd1234" 0 (by decide)

/-- C7: the allow-list matcher treats `org/*` as a prefix wildcard over the
part before the `*` — it matches `org/repo-a` and `org/repo-b` but not
`other/repo-a` — while the exact pattern `org/repo-a` matches exactly the
identical string. -/
theorem allowlist_pattern_semantics :
    matchPattern "org/repo-a" "org/*" = true ∧
    matchPattern "org/repo-b" "org/*" = true ∧
    matchPattern "other/repo-a" "org/*" = false ∧
    ∀ s : String, matchPattern s "org/repo-a" = true ↔ s = "org/repo-a" := by
  refine ⟨by decide, by decide, by decide, ?_⟩
  intro s
  constructor
  · intro h
    unfold matchPattern at h
    rw [if_neg (by decide)] at h
    exact eq_of_beq h
  · intro h
    subst h
    decide

/-! ## GitHub birth-issue verification (`hooks` routes in the repository:
`POST /api/auth/github/verify` and `checkCommentsForCode`). -/

/-- The issue metadata `fetchIssue` extracts from the GitHub API. -/
structure IssueInfo where
  author : String
  oracleName : String
  hasBirthPropsLabel : Bool
deriving DecidableEq

/-- One issue comment as read by `checkCommentsForCode`. -/
structure IssueComment where
  body : String
  login : String
deriving DecidableEq

/-- One entry of the in-memory `verificationCodes` map. -/
structure StoredCode where
  code : String
  expiresAt : Nat
deriving DecidableEq

/-- Go `strings.EqualFold`, modelled at ASCII adequacy as agreement of the
lower-casings. -/
def eqFold (a b : String) : Bool := lowerStr a == lowerStr b

/-- Embedding of Go `checkCommentsForCode`, applied to the already-fetched
comment list: some comment is authored (case-insensitively) by
`expectedAuthor` and contains the substring `verify:<code>` anywhere in its
body. -/
def checkCommentsForCode (comments : List IssueComment)
    (code expectedAuthor : String) : Bool :=
  comments.any (fun c =>
    eqFold c.login expectedAuthor && containsStr c.body ("verify:" ++ code))

/-- Embedding of Go `verifyStoredCode(repoKey, code)` applied to the looked
up entry: a present, unexpired entry with the matching code.  (The source
also deletes an expired entry as a side effect; no settled claim depends on
that mutation.) -/
def verifyStoredCode (stored : Option StoredCode) (now : Nat)
    (code : String) : Bool :=
  match stored with
  | none => false
  | some s => if s.expiresAt < now then false else s.code == code

/-- External collaborators of the GitHub verify route: the issue-URL regex
parser, the `verificationCodes` map and clock, the two GitHub API reads,
`findOrCreateOracleByGitHub` (returning the record and a created flag) and
`NewAuthToken`. -/
structure RepoEnv where
  parse : String → Except String (String × String × String)
  stored : String → Option StoredCode
  now : Nat
  fetchIssue : String → String → String → Except String IssueInfo
  fetchComments : String → String → String → Except String (List IssueComment)
  findOrCreate : String → String → String → Except String (Oracle × Bool)
  newToken : Oracle → Except String String

/-- Outcome of `POST /api/auth/github/verify`. -/
inductive RepoVerifyResult where
  | ok (token : String) (created : Bool) (oracle : Oracle)
  | err (msg : String)
deriving DecidableEq

/-- `POST /api/auth/github/verify`: parse the issue URL; require a stored,
unexpired, matching code for `owner/repo`; fetch the issue for its author;
scan the comments with `checkCommentsForCode`; on a hit, find-or-create the
oracle, mint a token and clear the code (the clearing mutates only the
in-memory map).  Error strings follow the source, with the Sprintf quoting
dropped. -/
def githubVerifyEndpoint (env : RepoEnv) (issueUrl code : String) :
    RepoVerifyResult :=
  match env.parse issueUrl with
  | .error e => .err e
  | .ok (owner, repo, issueNum) =>
    if verifyStoredCode (env.stored (owner ++ "/" ++ repo)) env.now code then
      match env.fetchIssue owner repo issueNum with
      | .error _ => .err "Failed to fetch issue"
      | .ok issue =>
        match env.fetchComments owner repo issueNum with
        | .error e => .err ("Failed to check comments: " ++ e)
        | .ok comments =>
          if checkCommentsForCode comments code issue.author then
            match env.findOrCreate issue.author (owner ++ "/" ++ repo)
                issue.oracleName with
            | .error _ => .err "Failed to create oracle"
            | .ok (oracle, created) =>
              match env.newToken oracle with
              | .error _ => .err "Failed to generate token"
              | .ok token => .ok token created oracle
          else
            .err ("Comment with verify:" ++ code ++ " not found from @" ++
              issue.author)
    else
      .err "Invalid or expired code. Start again."

/-- C4: a successful repo verification presupposes a pending unexpired
challenge and exhibits a comment authored (case-insensitively) by the
issue's original author containing the code token; comments by anyone else
can never produce success. -/
theorem repo_verify_requires_author_comment (env : RepoEnv)
    (url code t : String) (c : Bool) (o : Oracle)
    (h : githubVerifyEndpoint env url code = .ok t c o) :
    ∃ owner repo num issue comments,
      env.parse url = .ok (owner, repo, num) ∧
      verifyStoredCode (env.stored (owner ++ "/" ++ repo)) env.now code = true ∧
      env.fetchIssue owner repo num = .ok issue ∧
      env.fetchComments owner repo num = .ok comments ∧
      ∃ cm ∈ comments, eqFold cm.login issue.author = true ∧
        containsStr cm.body ("verify:" ++ code) = true := by
  unfold githubVerifyEndpoint at h
  split at h
  · cases h
  next owner repo num hp =>
    split at h
    next hstored =>
      split at h
      · cases h
      next issue hiss =>
        split at h
        · cases h
        next comments hcom =>
          split at h
          next hchk =>
            refine ⟨owner, repo, num, issue, comments, hp, hstored, hiss,
              hcom, ?_⟩
            rw [checkCommentsForCode, List.any_eq_true] at hchk
            obtain ⟨cm, hmem, hcm⟩ := hchk
            rw [Bool.and_eq_true] at hcm
            exact ⟨cm, hmem, hcm.1, hcm.2⟩
          · cases h
    · cases h

/-- A concrete issue whose author is `alice`. -/
def issueB : IssueInfo := ⟨"alice", "Oracly", true⟩

/-- A concrete comment with the code, posted by `Alice` (author up to
case). -/
def commentB : IssueComment := ⟨"please verify:beef01 thanks", "Alice"⟩

/-- A concrete repo-verification environment in which every step succeeds. -/
def repoEnvB : RepoEnv :=
  ⟨fun _ => .ok ("org", "repo", "1"),
   fun _ => some ⟨"beef01", 100⟩, 50,
   fun _ _ _ => .ok issueB,
   fun _ _ _ => .ok [commentB],
   fun _ _ _ => .ok (⟨"id3", "Oracly", "", true, 0⟩, true),
   fun _ => .ok "tok3"⟩

set_option maxRecDepth 4000 in
/-- C4 witness: the author-comment extraction at a concrete successful
run. -/
theorem repo_verify_requires_author_comment_witness :
    ∃ owner repo num issue comments,
      repoEnvB.parse "u" = .ok (owner, repo, num) ∧
      verifyStoredCode (repoEnvB.stored (owner ++ "/" ++ repo)) repoEnvB.now
        "beef01" = true ∧
      repoEnvB.fetchIssue owner repo num = .ok issue ∧
      repoEnvB.fetchComments owner repo num = .ok comments ∧
      ∃ cm ∈ comments, eqFold cm.login issue.author = true ∧
        containsStr cm.body ("verify:" ++ "beef01") = true :=
  repo_verify_requires_author_comment repoEnvB "u" "beef01" "tok3" true
    ⟨"id3", "Oracly", "", true, 0⟩ (by decide)

/-- C10: the comment scan compares authors case-insensitively and accepts
the token `verify:<code>` embedded anywhere in the body: any comment whose
author lower-cases to the issue author's lower-casing and whose body is any
text around `verify:<code>` makes `checkCommentsForCode` succeed. -/
theorem checkComments_fold_and_substring (comments : List IssueComment)
    (code author : String) (cm : IssueComment) (u v : String)
    (hmem : cm ∈ comments)
    (hlogin : lowerStr cm.login = lowerStr author)
    (hbody : cm.body = u ++ ("verify:" ++ code) ++ v) :
    checkCommentsForCode comments code author = true := by
  unfold checkCommentsForCode
  rw [List.any_eq_true]
  refine ⟨cm, hmem, ?_⟩
  rw [Bool.and_eq_true]
  constructor
  · unfold eqFold
    rw [hlogin]
    exact beq_self_eq_true _
  · rw [hbody]
    exact containsStr_of_append u _ v

/-- C10 witness: `commentB` (author `Alice` vs issue author `alice`, code
embedded mid-sentence) satisfies the scan. -/
theorem checkComments_fold_and_substring_witness :
    checkCommentsForCode [commentB] "beef01" "alice" = true :=
  checkComments_fold_and_substring [commentB] "beef01" "alice" commentB
    "please " " thanks" (List.mem_singleton.mpr rfl) (by decide) (by decide)

/-! ## Merkle tree (`computeTreeLayers` in `src/pages/Home.tsx`).

`computeTreeLayers` delegates tree construction to
`@openzeppelin/merkle-tree`'s `StandardMerkleTree.of(tuples, ...)`, whose
algorithm is embedded here: hash each leaf tuple, sort the hashed leaves
ascending (`compareBytes`), place leaf `i` of the sorted order at flat
index `2n-1-1-i` of a complete-binary-tree array, and fill every internal
index `j` with the hash of the byte-sorted pair of its children at `2j+1`
and `2j+2`.  `computeTreeLayers` then slices the flat array into layers of
widths `1, 2, 4, ...` (root first).  Keccak is abstracted: `H` is the pair
hash applied to the already-sorted pair, `LH` the leaf-tuple hash of
`[wallet.toLowerCase(), birth_issue, issue_number]`. -/

/-- One leaf tuple of the tree (`LeafData` in `Home.tsx`, minus the
display-only oracle name). -/
structure LeafData where
  bot_wallet : String
  birth_issue : String
  issue_number : Nat
deriving DecidableEq

/-- A default leaf for `getD` reads. -/
def leafDefault : LeafData := ⟨"", "", 0⟩

/-- OZ `hashPair(a, b) = keccak256(concat(sort([a, b])))`: the abstract
hash `H` applied to the ordered pair. -/
def hashPair (H : Nat → Nat → Nat) (a b : Nat) : Nat :=
  if a ≤ b then H a b else H b a

/-- Pair hashing is symmetric, because the pair is sorted first. -/
theorem hashPair_comm (H : Nat → Nat → Nat) (a b : Nat) :
    hashPair H a b = hashPair H b a := by
  unfold hashPair
  by_cases h1 : a ≤ b
  · by_cases h2 : b ≤ a
    · rw [if_pos h1, if_pos h2, Nat.le_antisymm h1 h2]
    · rw [if_pos h1, if_neg h2]
  · by_cases h2 : b ≤ a
    · rw [if_neg h1, if_pos h2]
    · omega

/-- The leaf hash of `computeTreeLayers`'s tuple
`[l.bot_wallet.toLowerCase(), l.birth_issue, BigInt(l.issue_number)]`
(OZ `standardLeafHash`), abstracted into `LH`. -/
def leafHashOf (LH : String → String → Nat → Nat) (l : LeafData) : Nat :=
  LH (lowerStr l.bot_wallet) l.birth_issue l.issue_number

/-- The hashed leaves in the order OZ builds the tree from: sorted
ascending by hash (`hashedValues.sort(compareBytes)`); the stable
`insertionSort` models the JS stable sort on the Nat-abstracted hashes. -/
def sortedLeafHashes (LH : String → String → Nat → Nat)
    (leaves : List LeafData) : List Nat :=
  List.insertionSort (· ≤ ·) (leaves.map (leafHashOf LH))

/-- Value of flat-array index `j` of OZ `makeMerkleTree(s)` for the sorted
leaf-hash list `s`: the last `s.length` indices hold the leaves in reverse
(`tree[tree.length-1-i] = leaves[i]`), every earlier index hashes its
children at `2j+1` and `2j+2`. -/
def ozNode (H : Nat → Nat → Nat) (s : List Nat) (j : Nat) : Nat :=
  if s.length - 1 ≤ j then
    s.getD (2 * s.length - 2 - j) 0
  else
    hashPair H (ozNode H s (2 * j + 1)) (ozNode H s (2 * j + 2))
termination_by 2 * s.length - j
decreasing_by
  · omega
  · omega

/-- OZ `siblingIndex`: odd indices pair with their successor, even ones
with their predecessor. -/
def siblingIndex (i : Nat) : Nat := if i % 2 = 1 then i + 1 else i - 1

/-- OZ `parentIndex`. -/
def parentIndex (i : Nat) : Nat := (i - 1) / 2

/-- OZ `getProof` from flat index `i`: collect the sibling value at every
step from `i` up to the root. -/
def getProofAux (H : Nat → Nat → Nat) (s : List Nat) (i : Nat) : List Nat :=
  if i = 0 then []
  else ozNode H s (siblingIndex i) :: getProofAux H s (parentIndex i)
termination_by i
decreasing_by
  unfold parentIndex
  omega

/-- Modelled from the spec: `verifyMembership`'s fold — recompute upward by
folding each proof element through the pair hash (identical to OZ
`processProof`); the verifier itself is absent from `src/`. -/
def processProof (H : Nat → Nat → Nat) (leaf : Nat) (proof : List Nat) : Nat :=
  proof.foldl (hashPair H) leaf

/-- Folding the proof collected from any valid flat index reproduces the
root value at index 0. -/
theorem processProof_getProofAux (H : Nat → Nat → Nat) (s : List Nat) :
    ∀ j, j < 2 * s.length - 1 →
      processProof H (ozNode H s j) (getProofAux H s j) = ozNode H s 0 := by
  intro j
  induction j using Nat.strong_induction_on with
  | _ j ih =>
    intro hj
    rcases Nat.eq_zero_or_pos j with h0 | hpos
    · subst h0
      rw [getProofAux, if_pos rfl]
      rfl
    · rw [getProofAux, if_neg (by omega)]
      have hfold : processProof H (ozNode H s j)
          (ozNode H s (siblingIndex j) :: getProofAux H s (parentIndex j)) =
          processProof H
            (hashPair H (ozNode H s j) (ozNode H s (siblingIndex j)))
            (getProofAux H s (parentIndex j)) := rfl
      rw [hfold]
      have hnode : ozNode H s (parentIndex j) =
          hashPair H (ozNode H s (2 * parentIndex j + 1))
            (ozNode H s (2 * parentIndex j + 2)) := by
        rw [ozNode, if_neg (by unfold parentIndex; omega)]
      have hkey : hashPair H (ozNode H s j) (ozNode H s (siblingIndex j)) =
          ozNode H s (parentIndex j) := by
        rcases Nat.even_or_odd j with he | ho
        · have hm : j % 2 = 0 := Nat.even_iff.mp he
          have hsib : siblingIndex j = j - 1 := by
            unfold siblingIndex
            rw [hm]
            simp
          have h1 : 2 * parentIndex j + 2 = j := by unfold parentIndex; omega
          have h2 : 2 * parentIndex j + 1 = j - 1 := by
            unfold parentIndex; omega
          rw [hnode, h1, h2, hsib]
          exact hashPair_comm H _ _
        · have hm : j % 2 = 1 := Nat.odd_iff.mp ho
          have hsib : siblingIndex j = j + 1 := by
            unfold siblingIndex
            rw [hm]
            simp
          have h1 : 2 * parentIndex j + 1 = j := by unfold parentIndex; omega
          have h2 : 2 * parentIndex j + 2 = j + 1 := by
            unfold parentIndex; omega
          rw [hnode, h1, h2, hsib]
      rw [hkey]
      exact ih (parentIndex j) (by unfold parentIndex; omega)
        (by unfold parentIndex; omega)

/-- The flat `dump.tree` array (root at index 0). -/
def flatTreeOfHashes (H : Nat → Nat → Nat) (s : List Nat) : List Nat :=
  (List.range (2 * s.length - 1)).map (ozNode H s)

/-- The layer widths computed by `computeTreeLayers`'s loop
(`layerSize = min(w, remaining)`, `w` doubling from 1).  The first argument
carries `w - 1`, so the doubling `w := 2 * w` becomes
`w - 1 := 2 * (w - 1) + 1`, keeping the recursion visibly terminating. -/
def layerWidths (wPred r : Nat) : List Nat :=
  if r = 0 then []
  else min (wPred + 1) r :: layerWidths (2 * wPred + 1) (r - min (wPred + 1) r)
termination_by r
decreasing_by
  omega

/-- Slice a list into consecutive chunks of the given sizes
(`treeValues.slice(idx, idx + size)`). -/
def slicesBy : List Nat → List Nat → List (List Nat)
  | [], _ => []
  | sz :: rest, l => l.take sz :: slicesBy rest (l.drop sz)

/-- The layer reconstruction of `computeTreeLayers` on a sorted leaf-hash
list: slice the flat tree into layers of widths `1, 2, 4, ...`. -/
def layersOfHashes (H : Nat → Nat → Nat) (s : List Nat) : List (List Nat) :=
  slicesBy (layerWidths 0 (2 * s.length - 1)) (flatTreeOfHashes H s)

/-- `computeTreeLayers(leaves).layers`: build the OZ tree over the hashed,
hash-sorted leaves and slice it into layers, root layer first. -/
def computeTreeLayers (H : Nat → Nat → Nat) (LH : String → String → Nat → Nat)
    (leaves : List LeafData) : List (List Nat) :=
  layersOfHashes H (sortedLeafHashes LH leaves)

/-- The tree root: flat index 0. -/
def merkleRoot (H : Nat → Nat → Nat) (LH : String → String → Nat → Nat)
    (leaves : List LeafData) : Nat :=
  ozNode H (sortedLeafHashes LH leaves) 0

/-- Modelled from the spec: `proveMembership(leafIndex)` — the ordered
sibling hashes from the leaf's position to the root (OZ `getProof` at the
leaf's flat tree index, which is `2n-2` minus its position in the sorted
hash order); the prover endpoint itself is absent from `src/`. -/
def proveMembership (H : Nat → Nat → Nat) (LH : String → String → Nat → Nat)
    (leaves : List LeafData) (li : Nat) : List Nat :=
  getProofAux H (sortedLeafHashes LH leaves)
    (2 * leaves.length - 2 -
      List.indexOf (leafHashOf LH (leaves.getD li leafDefault))
        (sortedLeafHashes LH leaves))

/-- Modelled from the spec: `verifyMembership(leaf, proof, root)` —
recompute the leaf hash, fold the proof through the pair hash, compare with
the root; implementable from `(leaf, proof, root)` alone. -/
def verifyMembership (H : Nat → Nat → Nat) (LH : String → String → Nat → Nat)
    (l : LeafData) (proof : List Nat) (root : Nat) : Bool :=
  processProof H (leafHashOf LH l) proof == root

/-- C2: for every leaf index of a built tree, generating the membership
proof and verifying it against the tree's root succeeds — for every pair
hash and leaf hash. -/
theorem merkle_round_trip (H : Nat → Nat → Nat)
    (LH : String → String → Nat → Nat) (leaves : List LeafData) (li : Nat)
    (h : li < leaves.length) :
    verifyMembership H LH (leaves.getD li leafDefault)
      (proveMembership H LH leaves li) (merkleRoot H LH leaves) = true := by
  have hlen : (sortedLeafHashes LH leaves).length = leaves.length := by
    unfold sortedLeafHashes
    rw [List.length_insertionSort, List.length_map]
  have hmem : leafHashOf LH (leaves.getD li leafDefault) ∈
      sortedLeafHashes LH leaves := by
    unfold sortedLeafHashes
    rw [List.Perm.mem_iff (List.perm_insertionSort _ _)]
    refine List.mem_map_of_mem _ ?_
    rw [List.getD_eq_getElem _ _ h]
    exact List.getElem_mem h
  have hklt : List.indexOf (leafHashOf LH (leaves.getD li leafDefault))
      (sortedLeafHashes LH leaves) < (sortedLeafHashes LH leaves).length :=
    List.indexOf_lt_length.mpr hmem
  have hleaf : ozNode H (sortedLeafHashes LH leaves)
      (2 * leaves.length - 2 -
        List.indexOf (leafHashOf LH (leaves.getD li leafDefault))
          (sortedLeafHashes LH leaves)) =
      leafHashOf LH (leaves.getD li leafDefault) := by
    rw [ozNode, if_pos (by omega)]
    have harg : 2 * (sortedLeafHashes LH leaves).length - 2 -
        (2 * leaves.length - 2 -
          List.indexOf (leafHashOf LH (leaves.getD li leafDefault))
            (sortedLeafHashes LH leaves)) =
        List.indexOf (leafHashOf LH (leaves.getD li leafDefault))
          (sortedLeafHashes LH leaves) := by
      omega
    rw [harg, List.getD_eq_getElem _ _ hklt]
    exact List.getElem_indexOf hklt
  unfold verifyMembership proveMembership merkleRoot
  have hrt := processProof_getProofAux H (sortedLeafHashes LH leaves)
    (2 * leaves.length - 2 -
      List.indexOf (leafHashOf LH (leaves.getD li leafDefault))
        (sortedLeafHashes LH leaves)) (by omega)
  rw [hleaf] at hrt
  rw [hrt]
  exact beq_self_eq_true _

/-- A concrete pair hash (Cantor pairing of the ordered pair). -/
def pairHashC (a b : Nat) : Nat := (a + b) * (a + b + 1) / 2 + b

/-- A concrete leaf hash whose order reverses the issue-number order. -/
def leafHashC (_w _bi : String) (n : Nat) : Nat := 10 - n

/-- Three concrete leaves, in issue-number ascending order. -/
def leavesC : List LeafData :=
  [⟨"0xA", "u0", 1⟩, ⟨"0xB", "u1", 2⟩, ⟨"0xC", "u2", 3⟩]

/-- C2 witness: the round trip at leaf index 1 of the concrete tree. -/
theorem merkle_round_trip_witness :
    1 < leavesC.length ∧
    verifyMembership pairHashC leafHashC (leavesC.getD 1 leafDefault)
      (proveMembership pairHashC leafHashC leavesC 1)
      (merkleRoot pairHashC leafHashC leavesC) = true :=
  ⟨by decide, merkle_round_trip pairHashC leafHashC leavesC 1 (by decide)⟩

/-- The layer decomposition of a three-hash tree: the two smallest sorted
hashes are paired, the largest is carried up unchanged into layer 1, and
the root hashes that pair hash with the carried node. -/
theorem layersOfHashes_three (H : Nat → Nat → Nat) (h0 h1 h2 : Nat) :
    layersOfHashes H [h0, h1, h2] =
      [[hashPair H (hashPair H h0 h1) h2], [hashPair H h0 h1, h2], [h1, h0]] := by
  have e4 : ozNode H [h0, h1, h2] 4 = h0 := by
    rw [ozNode]
    simp
  have e3 : ozNode H [h0, h1, h2] 3 = h1 := by
    rw [ozNode]
    simp
  have e2 : ozNode H [h0, h1, h2] 2 = h2 := by
    rw [ozNode]
    simp
  have e1 : ozNode H [h0, h1, h2] 1 = hashPair H h0 h1 := by
    rw [ozNode, if_neg (by simp)]
    rw [show 2 * 1 + 1 = 3 from rfl, show 2 * 1 + 2 = 4 from rfl, e3, e4]
    exact hashPair_comm H h1 h0
  have e0 : ozNode H [h0, h1, h2] 0 =
      hashPair H (hashPair H h0 h1) h2 := by
    rw [ozNode, if_neg (by simp)]
    rw [show 2 * 0 + 1 = 1 from rfl, show 2 * 0 + 2 = 2 from rfl, e1, e2]
  have hw : layerWidths 0 5 = [1, 2, 2] := by
    rw [layerWidths]
    norm_num
    rw [layerWidths]
    norm_num
    rw [layerWidths]
    norm_num
    rw [layerWidths]
    norm_num
  unfold layersOfHashes flatTreeOfHashes
  have hlen : 2 * ([h0, h1, h2] : List Nat).length - 1 = 5 := by simp
  rw [hlen, hw, show List.range 5 = [0, 1, 2, 3, 4] from rfl]
  simp only [List.map]
  rw [e0, e1, e2, e3, e4]
  rfl

/-- C3 (amended): for every tree of exactly three leaves, the builder
orders the leaf hashes ascending (by hash, not by issue number); layer 1
pairs the two smallest hashes and carries the largest hash up unchanged
(not duplicated), and the root hashes the sorted pair of layer 1's two
nodes. -/
theorem merkle_three_sorted_layers (H : Nat → Nat → Nat)
    (LH : String → String → Nat → Nat) (leaves : List LeafData)
    (h0 h1 h2 : Nat) (hs : sortedLeafHashes LH leaves = [h0, h1, h2]) :
    h0 ≤ h1 ∧ h1 ≤ h2 ∧
    (computeTreeLayers H LH leaves).getD 1 [] = [hashPair H h0 h1, h2] ∧
    (computeTreeLayers H LH leaves).getD 0 [] =
      [hashPair H (hashPair H h0 h1) h2] := by
  have hsorted : List.Sorted (· ≤ ·) (sortedLeafHashes LH leaves) :=
    List.sorted_insertionSort _ _
  rw [hs, List.sorted_cons] at hsorted
  refine ⟨hsorted.1 h1 (by simp), ?_, ?_, ?_⟩
  · have h2s := hsorted.2
    rw [List.sorted_cons] at h2s
    exact h2s.1 h2 (by simp)
  · unfold computeTreeLayers
    rw [hs, layersOfHashes_three]
    rfl
  · unfold computeTreeLayers
    rw [hs, layersOfHashes_three]
    rfl

/-- C3 witness: the sorted-layer decomposition at the concrete tree (leaf
hashes 9, 8, 7 in issue order; sorted to 7, 8, 9). -/
theorem merkle_three_sorted_layers_witness :
    (7 : Nat) ≤ 8 ∧ (8 : Nat) ≤ 9 ∧
    (computeTreeLayers pairHashC leafHashC leavesC).getD 1 [] =
      [hashPair pairHashC 7 8, 9] ∧
    (computeTreeLayers pairHashC leafHashC leavesC).getD 0 [] =
      [hashPair pairHashC (hashPair pairHashC 7 8) 9] :=
  merkle_three_sorted_layers pairHashC leafHashC leavesC 7 8 9 (by decide)

/-- C3 counterexample: for `leavesC` (issue numbers 1, 2, 3 ascending, but
leaf hashes 9, 8, 7), layer 1 is not `[hash(sort(L0, L1)), L2]` in
issue-number order — the builder pairs by hash order, so L0 (the largest
hash) is the carried node instead of L2. -/
theorem merkle_three_leaves_issue_order_refuted :
    leavesC.map (fun l => l.issue_number) = [1, 2, 3] ∧
    (computeTreeLayers pairHashC leafHashC leavesC).getD 1 [] ≠
      [hashPair pairHashC (leafHashOf leafHashC (leavesC.getD 0 leafDefault))
         (leafHashOf leafHashC (leavesC.getD 1 leafDefault)),
       leafHashOf leafHashC (leavesC.getD 2 leafDefault)] := by
  refine ⟨by decide, ?_⟩
  have hs : sortedLeafHashes leafHashC leavesC = [7, 8, 9] := by decide
  unfold computeTreeLayers
  rw [hs, layersOfHashes_three]
  decide

end OracleNet
